import Mathlib

/-
Verification development for the Poll contract (reputation-weighted quadratic
voting with a pooled-stake settlement).  The definitions below are a shallow
embedding of the Solidity source: uint256 values become Nat (Solidity 0.8
checked arithmetic never wraps; the magnitudes reachable here stay far below
2^256), mappings with zero defaults become functions or association lists,
reverts become Except.error (an error carries no state, modelling the EVM
rollback of every storage write of the aborted call), and the two external
collaborators (ReputationRegistry and the ERC20 betting token) are modelled
by per-call parameters: the multiplier value the registry returns and the
success of each token transfer or reputation call.
-/

set_option maxHeartbeats 1000000

namespace HackPoll

/-- The three voting methods of the contract enum. -/
inductive VotingMethod where
  | QUADRATIC
  | SIMPLE
  | WEIGHTED
deriving DecidableEq, Repr

/-- Revert reasons of the contract.  The first eight are the declared custom
errors (note: the source declares no NotAVoter error).  TokenTransferFailed and
PayoutTransferFailed model the two require-with-message failures,
DivisionByZero models the EVM panic raised by a division by zero, and
ReputationCallFailed models a revert bubbling up from the external
addReputation call. -/
inductive PollError where
  | PollClosed
  | PollStillActive
  | AlreadyVoted
  | AlreadyClaimed
  | NotAWinner
  | InvalidOption
  | InvalidCredits
  | InvalidVotingMethod
  | TokenTransferFailed
  | PayoutTransferFailed
  | DivisionByZero
  | ReputationCallFailed
deriving DecidableEq, Repr

/-- The Vote struct: one record per voter. -/
structure Vote where
  option : Nat
  creditsSpent : Nat
  weightedVotes : Nat
  timestamp : Nat
  method : VotingMethod
deriving DecidableEq, Repr

/-- The all-zero Vote value a Solidity mapping returns for an absent key. -/
def zeroVote : Vote := ⟨0, 0, 0, 0, .QUADRATIC⟩

/-- Immutable poll configuration fixed by the constructor.  Option labels are
irrelevant to the ledger, so only the length of the options array is kept. -/
structure Config where
  numOptions : Nat
  endTime : Nat
  maxWeightCap : Nat
  votingMethod : VotingMethod
  isVotingMethodLocked : Bool

/-- Mutable contract storage. -/
structure PollState where
  isActive : Bool
  totalVoters : Nat
  totalWeightedVotes : Nat
  totalBetAmount : Nat
  userBets : Nat → Nat
  hasClaimed : Nat → Bool
  results : Nat → Nat
  votes : List (Nat × Vote)

/-- Storage right after the constructor ran (counters zero, maps empty,
isActive set to true). -/
def initState : PollState :=
  { isActive := true
    totalVoters := 0
    totalWeightedVotes := 0
    totalBetAmount := 0
    userBets := fun _ => 0
    hasClaimed := fun _ => false
    results := fun _ => 0
    votes := [] }

def MAX_CREDITS_PER_USER : Nat := 100

def CREDIT_PRICE : Nat := 10 ^ 18

/-- Reading the votes mapping: the first recorded entry for the address, or
the zero struct when the address never voted. -/
def lookupVote (s : PollState) (a : Nat) : Vote :=
  match s.votes.find? (fun p => p.1 == a) with
  | some p => p.2
  | none => zeroVote

/-- The VotingMethod(uint8) cast for the validated range 0..2. -/
def methodOfNat : Nat → VotingMethod
  | 0 => .QUADRATIC
  | 1 => .SIMPLE
  | _ => .WEIGHTED

/-- The Babylonian iteration of the internal square-root helper: while z < y,
set y := z and z := (x / z + z) / 2; return y.  The loop strictly decreases y
on every pass, so it runs at most y0 passes; the structural fuel argument
makes that bound explicit (fuel at least y reproduces the loop exactly). -/
def sqrtIter (x : Nat) : Nat → Nat → Nat → Nat
  | 0, _, y => y
  | fuel + 1, z, y => if z < y then sqrtIter x fuel ((x / z + z) / 2) z else y

/-- The internal integer square root of the contract (Babylonian method),
starting from z = (x + 1) / 2 and y = x; x passes of fuel always suffice. -/
def _sqrt (x : Nat) : Nat :=
  if x = 0 then 0 else sqrtIter x x ((x + 1) / 2) x

/-- Weight computation of a vote: base votes from the method formula, then
the reputation multiplier at 18-decimal fixed point.  The multiplier the
registry returned is passed in as an argument. -/
def _calculateVoteWeightWithMethod (multiplier credits : Nat) (method : VotingMethod) : Nat :=
  let baseVotes :=
    match method with
    | .QUADRATIC => _sqrt credits
    | .SIMPLE => credits
    | .WEIGHTED => credits * 15 / 10
  baseVotes * multiplier / 10 ^ 18

/-- The commit block of vote: push the record, add the weight to the chosen
option, bump both counters. -/
def commitVote (s : PollState) (sender optionId credits weightedVotes timestamp : Nat)
    (methodToUse : VotingMethod) : PollState :=
  { s with
    votes := (sender, ⟨optionId, credits, weightedVotes, timestamp, methodToUse⟩) :: s.votes
    results := fun j => if j = optionId then s.results j + weightedVotes else s.results j
    totalVoters := s.totalVoters + 1
    totalWeightedVotes := s.totalWeightedVotes + weightedVotes }

/-- The vote function.  Guards appear in source order; the bet bookkeeping
(userBets and totalBetAmount) is staged before the weight computation exactly
as in the source, and is discarded with the rest of the state on any later
revert. -/
def vote (cfg : Config) (s : PollState)
    (sender optionId tokenAmount preferredMethod blockTimestamp multiplier : Nat)
    (transferFromOk : Bool) : Except PollError PollState :=
  if cfg.endTime ≤ blockTimestamp then .error .PollClosed
  else if 0 < (lookupVote s sender).timestamp then .error .AlreadyVoted
  else if cfg.numOptions ≤ optionId then .error .InvalidOption
  else if tokenAmount = 0 then .error .InvalidCredits
  else if tokenAmount / CREDIT_PRICE = 0 then .error .InvalidCredits
  else if MAX_CREDITS_PER_USER < tokenAmount / CREDIT_PRICE then .error .InvalidCredits
  else if transferFromOk = false then .error .TokenTransferFailed
  else if cfg.isVotingMethodLocked = false ∧ 2 < preferredMethod then .error .InvalidVotingMethod
  else
    let credits := tokenAmount / CREDIT_PRICE
    let s1 : PollState :=
      { s with
        userBets := fun a => if a = sender then tokenAmount else s.userBets a
        totalBetAmount := s.totalBetAmount + tokenAmount }
    let methodToUse := if cfg.isVotingMethodLocked then cfg.votingMethod
      else methodOfNat preferredMethod
    let weightedRaw := _calculateVoteWeightWithMethod multiplier credits methodToUse
    let weightedVotes :=
      if s1.totalVoters = 0 then
        let absoluteMax := 10 * (3 * 10 ^ 18) / 10 ^ 18
        if absoluteMax < weightedRaw then absoluteMax else weightedRaw
      else
        let avgWeight := s1.totalWeightedVotes / s1.totalVoters
        let maxAllowed := avgWeight * cfg.maxWeightCap
        if maxAllowed < weightedRaw then maxAllowed else weightedRaw
    .ok (commitVote s1 sender optionId credits weightedVotes blockTimestamp methodToUse)

/-- getWinner: forward scan keeping the first strictly greater tally,
starting from (0, 0). -/
def getWinner (cfg : Config) (s : PollState) : Nat × Nat :=
  (List.range cfg.numOptions).foldl
    (fun acc i => if acc.2 < s.results i then (i, s.results i) else acc) (0, 0)

/-- claimWinnings.  A caller without a record hits the same NotAWinner revert
as a losing voter (source comment: Didnt vote).  The division by the winning
tally panics when that tally is zero, modelled as DivisionByZero.  The payout
transfer and the external addReputation call each abort the whole operation
when they fail. -/
def claimWinnings (cfg : Config) (s : PollState) (sender blockTimestamp : Nat)
    (transferOk addReputationOk : Bool) : Except PollError (PollState × Nat) :=
  if blockTimestamp < cfg.endTime then .error .PollStillActive
  else if s.hasClaimed sender then .error .AlreadyClaimed
  else if (lookupVote s sender).timestamp = 0 then .error .NotAWinner
  else if (lookupVote s sender).option ≠ (getWinner cfg s).1 then .error .NotAWinner
  else if (getWinner cfg s).2 = 0 then .error .DivisionByZero
  else
    let userShare := (lookupVote s sender).weightedVotes * s.totalBetAmount / (getWinner cfg s).2
    let s1 : PollState :=
      { s with hasClaimed := fun a => if a = sender then true else s.hasClaimed a }
    if transferOk = false then .error .PayoutTransferFailed
    else if addReputationOk = false then .error .ReputationCallFailed
    else .ok (s1, userShare)

/-- One external call to the contract, with the responses of the external
collaborators for that call. -/
inductive Op where
  | castVote (sender optionId tokenAmount preferredMethod blockTimestamp multiplier : Nat)
      (transferFromOk : Bool)
  | claim (sender blockTimestamp : Nat) (transferOk addReputationOk : Bool)

/-- The block timestamp at which an operation runs. -/
def Op.time : Op → Nat
  | .castVote _ _ _ _ t _ _ => t
  | .claim _ t _ _ => t

/-- Applying one operation: a revert leaves storage exactly as it was. -/
def applyOp (cfg : Config) (s : PollState) : Op → PollState
  | .castVote a o amt pm t m xo =>
    match vote cfg s a o amt pm t m xo with
    | .ok s2 => s2
    | .error _ => s
  | .claim a t xo ro =>
    match claimWinnings cfg s a t xo ro with
    | .ok p => p.1
    | .error _ => s

/-- Running a sequence of operations against the ledger. -/
def run (cfg : Config) (s : PollState) : List Op → PollState
  | [] => s
  | op :: ops => run cfg (applyOp cfg s op) ops

/-- An operation fails (reverts) on a given state. -/
def opFails (cfg : Config) (s : PollState) (op : Op) : Prop :=
  match op with
  | .castVote a o amt pm t m xo => ∃ e, vote cfg s a o amt pm t m xo = Except.error e
  | .claim a t xo ro => ∃ e, claimWinnings cfg s a t xo ro = Except.error e

/-- Sum of the per-option tallies over all option indices. -/
def sumResults (cfg : Config) (s : PollState) : Nat :=
  Finset.sum (Finset.range cfg.numOptions) s.results

/-- An address holds a VoteRecord when the stored struct is not the zero
struct, which the contract detects through its timestamp field. -/
def holdsVoteRecord (s : PollState) (a : Nat) : Bool :=
  (lookupVote s a).timestamp != 0

/-- Number of distinct voter addresses holding a VoteRecord. -/
def voteRecordCount (s : PollState) : Nat :=
  ((s.votes.map Prod.fst).dedup.filter (fun a => holdsVoteRecord s a)).length

/-- Arithmetic helper: twice a product is at most the sum of the squares. -/
lemma two_mul_le_sq_add_sq (a b : Nat) : 2 * a * b ≤ a * a + b * b := by
  rcases Nat.le_total a b with h | h
  · obtain ⟨d, rfl⟩ := Nat.exists_eq_add_of_le h
    have hid : a * a + (a + d) * (a + d) = 2 * a * (a + d) + d * d := by ring
    linarith [Nat.zero_le (d * d)]
  · obtain ⟨d, rfl⟩ := Nat.exists_eq_add_of_le h
    have hid : (b + d) * (b + d) + b * b = 2 * (b + d) * b + d * d := by ring
    linarith [Nat.zero_le (d * d)]

/-- For every positive z, the Babylonian step numerator x / z + z is at least
twice the integer square root of x. -/
lemma sqrt_le_div_add (x z : Nat) (hz : 0 < z) : 2 * Nat.sqrt x ≤ x / z + z := by
  have h1 : (2 * Nat.sqrt x - z) * z ≤ Nat.sqrt x * Nat.sqrt x := by
    rcases Nat.le_total (2 * Nat.sqrt x) z with h | h
    · simp [Nat.sub_eq_zero_of_le h]
    · have h2 : 2 * Nat.sqrt x * z ≤ Nat.sqrt x * Nat.sqrt x + z * z :=
        two_mul_le_sq_add_sq (Nat.sqrt x) z
      rw [Nat.sub_mul]
      exact Nat.sub_le_iff_le_add.mpr (by linarith)
  have h2 : (2 * Nat.sqrt x - z) * z ≤ x := le_trans h1 (Nat.sqrt_le x)
  have h3 : 2 * Nat.sqrt x - z ≤ x / z := (Nat.le_div_iff_mul_le hz).mpr h2
  omega

/-- The Babylonian loop returns the integer square root whenever its state
satisfies the loop invariant: both z and y dominate the square root, and y can
only have crossed below z if y squared is already at most x. -/
lemma sqrtIter_eq_sqrt (x : Nat) (hx : 0 < x) :
    ∀ fuel z y, y ≤ fuel → Nat.sqrt x ≤ z → Nat.sqrt x ≤ y → (y ≤ z → y * y ≤ x) →
      sqrtIter x fuel z y = Nat.sqrt x := by
  intro fuel
  induction fuel with
  | zero =>
    intro z y hf hsz hsy hyz
    have hs1 : 1 ≤ Nat.sqrt x := Nat.sqrt_pos.mpr hx
    omega
  | succ fuel ih =>
    intro z y hf hsz hsy hyz
    rw [sqrtIter]
    split
    · rename_i h
      have hs1 : 1 ≤ Nat.sqrt x := Nat.sqrt_pos.mpr hx
      have hz1 : 0 < z := lt_of_lt_of_le hs1 hsz
      apply ih
      · omega
      · exact (Nat.le_div_iff_mul_le (by norm_num)).mpr
          (by linarith [sqrt_le_div_add x z hz1])
      · exact hsz
      · intro hle
        have h2 : z * 2 ≤ x / z + z := (Nat.le_div_iff_mul_le (by norm_num)).mp hle
        have h3 : z ≤ x / z := by linarith
        exact (Nat.le_div_iff_mul_le hz1).mp h3
    · rename_i h
      have hyzle : y ≤ z := Nat.le_of_not_lt h
      have h4 : y ≤ Nat.sqrt x := Nat.le_sqrt.mpr (hyz hyzle)
      omega

/-- The internal Babylonian square root agrees with the mathematical integer
square root on every input. -/
lemma _sqrt_eq_sqrt (x : Nat) : _sqrt x = Nat.sqrt x := by
  unfold _sqrt
  split
  · rename_i h
    subst h
    rfl
  · rename_i h
    have hx : 0 < x := Nat.pos_of_ne_zero h
    apply sqrtIter_eq_sqrt x hx
    · exact le_refl x
    · have h1 : Nat.sqrt x * Nat.sqrt x ≤ x := Nat.sqrt_le x
      have h2 : 2 * Nat.sqrt x * 1 ≤ Nat.sqrt x * Nat.sqrt x + 1 * 1 :=
        two_mul_le_sq_add_sq (Nat.sqrt x) 1
      exact (Nat.le_div_iff_mul_le (by norm_num)).mpr (by linarith)
    · exact Nat.sqrt_le_self x
    · intro hyx
      have h5 : x * 2 ≤ x + 1 := (Nat.le_div_iff_mul_le (by norm_num)).mp hyx
      have hx1 : x = 1 := by omega
      subst hx1
      norm_num

/-- The getWinner scan over the first n option indices, abstracted over the
tally map. -/
def winnerFold (r : Nat → Nat) (n : Nat) : Nat × Nat :=
  (List.range n).foldl (fun acc i => if acc.2 < r i then (i, r i) else acc) (0, 0)

/-- Unfolding the scan one index at a time. -/
lemma winnerFold_succ (r : Nat → Nat) (n : Nat) :
    winnerFold r (n + 1) =
      (if (winnerFold r n).2 < r n then (n, r n) else winnerFold r n) := by
  unfold winnerFold
  rw [List.range_succ, List.foldl_append]
  rfl

/-- The scan keeps the first index attaining the running maximum: the result
is in range, its tally is the recorded maximum, every index is dominated, and
every earlier index is strictly below. -/
lemma winnerFold_spec (r : Nat → Nat) :
    ∀ n, 1 ≤ n →
      (winnerFold r n).1 < n ∧
      r (winnerFold r n).1 = (winnerFold r n).2 ∧
      (∀ j, j < n → r j ≤ (winnerFold r n).2) ∧
      (∀ j, j < (winnerFold r n).1 → r j < (winnerFold r n).2) := by
  intro n
  induction n with
  | zero => intro h; omega
  | succ n ih =>
    intro _
    rcases Nat.eq_zero_or_pos n with hn | hn
    · subst hn
      have h1 : winnerFold r 1 = if (0:Nat) < r 0 then ((0:Nat), r 0) else (0, 0) := rfl
      rw [h1]
      split
      · rename_i h0
        exact ⟨Nat.zero_lt_one, rfl, fun j hj => by interval_cases j; simp,
          fun j hj => absurd hj (Nat.not_lt_zero j)⟩
      · rename_i h0
        have hr0 : r 0 = 0 := Nat.eq_zero_of_not_pos h0
        exact ⟨Nat.zero_lt_one, hr0, fun j hj => by interval_cases j; simp [hr0],
          fun j hj => absurd hj (Nat.not_lt_zero j)⟩
    · obtain ⟨ih1, ih2, ih3, ih4⟩ := ih hn
      rw [winnerFold_succ]
      split
      · rename_i hlt
        refine ⟨Nat.lt_succ_self n, rfl, ?_, ?_⟩
        · intro j hj
          rcases Nat.lt_succ_iff_lt_or_eq.mp hj with hj2 | hj2
          · exact le_of_lt (lt_of_le_of_lt (ih3 j hj2) hlt)
          · subst hj2; exact le_refl _
        · intro j hj
          exact lt_of_le_of_lt (ih3 j hj) hlt
      · rename_i hge
        refine ⟨lt_trans ih1 (Nat.lt_succ_self n), ih2, ?_, ih4⟩
        intro j hj
        rcases Nat.lt_succ_iff_lt_or_eq.mp hj with hj2 | hj2
        · exact ih3 j hj2
        · subst hj2; exact Nat.le_of_not_lt hge

/-- C7: getWinner returns the smallest option index attaining the maximum
perOption tally together with that tally (a later equal tally never displaces
an earlier one), and with no votes cast it returns option 0 with weight 0. -/
theorem getWinner_first_max (cfg : Config) (s : PollState) (h : 1 ≤ cfg.numOptions) :
    (getWinner cfg s).1 < cfg.numOptions ∧
    s.results (getWinner cfg s).1 = (getWinner cfg s).2 ∧
    (∀ j, j < cfg.numOptions → s.results j ≤ (getWinner cfg s).2) ∧
    (∀ j, j < (getWinner cfg s).1 → s.results j < (getWinner cfg s).2) ∧
    ((∀ j, j < cfg.numOptions → s.results j = 0) → getWinner cfg s = (0, 0)) := by
  have hspec := winnerFold_spec s.results cfg.numOptions h
  have hg : getWinner cfg s = winnerFold s.results cfg.numOptions := rfl
  rw [hg]
  obtain ⟨h1, h2, h3, h4⟩ := hspec
  refine ⟨h1, h2, h3, h4, ?_⟩
  intro hz
  have hw2 : (winnerFold s.results cfg.numOptions).2 = 0 := by
    rw [← h2]; exact hz _ h1
  have hw1 : (winnerFold s.results cfg.numOptions).1 = 0 := by
    by_contra hne
    have h0 : 0 < (winnerFold s.results cfg.numOptions).1 := Nat.pos_of_ne_zero hne
    have h5 := h4 0 h0
    rw [hw2] at h5
    exact absurd h5 (Nat.not_lt_zero _)
  exact Prod.ext hw1 hw2

/-- Reading the votes mapping right after a commit returns the new record. -/
lemma lookupVote_commit (s : PollState) (a o c w t : Nat) (m : VotingMethod) :
    lookupVote (commitVote s a o c w t m) a = ⟨o, c, w, t, m⟩ := by
  simp [lookupVote, commitVote, List.find?]

/-- Clamping a raw value to a ceiling never exceeds the ceiling. -/
lemma capped_le (cap raw : Nat) : (if cap < raw then cap else raw) ≤ cap := by
  split
  · exact le_refl cap
  · exact Nat.le_of_not_lt (by assumption)

/-- Elimination of a successful vote: the post state is the commit of the
bet-updated state, the guards all passed, and the committed weight respects
the pre-vote cap (30 for the first voter, running average times the cap
multiplier afterwards). -/
lemma vote_ok_elim (cfg : Config) (s s2 : PollState) (a o amt pm t mu : Nat) (xo : Bool)
    (h : vote cfg s a o amt pm t mu xo = .ok s2) :
    ∃ w mt,
      s2 = commitVote
        { s with
          userBets := fun x => if x = a then amt else s.userBets x
          totalBetAmount := s.totalBetAmount + amt }
        a o (amt / CREDIT_PRICE) w t mt ∧
      t < cfg.endTime ∧
      (lookupVote s a).timestamp = 0 ∧
      o < cfg.numOptions ∧
      amt / CREDIT_PRICE ≠ 0 ∧
      amt / CREDIT_PRICE ≤ MAX_CREDITS_PER_USER ∧
      w ≤ (if s.totalVoters = 0 then 30
        else s.totalWeightedVotes / s.totalVoters * cfg.maxWeightCap) := by
  simp only [vote] at h
  by_cases h1 : cfg.endTime ≤ t
  · rw [if_pos h1] at h; exact Except.noConfusion h
  rw [if_neg h1] at h
  by_cases h2 : 0 < (lookupVote s a).timestamp
  · rw [if_pos h2] at h; exact Except.noConfusion h
  rw [if_neg h2] at h
  by_cases h3 : cfg.numOptions ≤ o
  · rw [if_pos h3] at h; exact Except.noConfusion h
  rw [if_neg h3] at h
  by_cases h4 : amt = 0
  · rw [if_pos h4] at h; exact Except.noConfusion h
  rw [if_neg h4] at h
  by_cases h5 : amt / CREDIT_PRICE = 0
  · rw [if_pos h5] at h; exact Except.noConfusion h
  rw [if_neg h5] at h
  by_cases h6 : MAX_CREDITS_PER_USER < amt / CREDIT_PRICE
  · rw [if_pos h6] at h; exact Except.noConfusion h
  rw [if_neg h6] at h
  by_cases h7 : xo = false
  · rw [if_pos h7] at h; exact Except.noConfusion h
  rw [if_neg h7] at h
  by_cases h8 : cfg.isVotingMethodLocked = false ∧ 2 < pm
  · rw [if_pos h8] at h; exact Except.noConfusion h
  rw [if_neg h8] at h
  rw [Except.ok.injEq] at h
  refine ⟨_, _, h.symm, Nat.not_le.mp h1, Nat.eq_zero_of_not_pos h2, Nat.not_le.mp h3,
    h5, Nat.not_lt.mp h6, ?_⟩
  by_cases hv : s.totalVoters = 0
  · rw [if_pos hv, if_pos hv]
    have habs : 10 * (3 * 10 ^ 18) / 10 ^ 18 = 30 := by norm_num
    rw [habs]
    exact capped_le _ _
  · rw [if_neg hv, if_neg hv]
    exact capped_le _ _

/-- A sample two-option configuration used by concrete witnesses. -/
def cfgA : Config :=
  { numOptions := 2, endTime := 10, maxWeightCap := 3
    votingMethod := .QUADRATIC, isVotingMethodLocked := true }

/-- C2: the weightedScore recorded by any committed vote never exceeds the
cap computed from the pre-vote snapshot: at most 30 when the pre-vote
totalVoters is zero, and otherwise at most the floor average of the pre-vote
tallies times the maxWeightCap multiplier. -/
theorem committed_weight_le_cap (cfg : Config) (s s2 : PollState)
    (a o amt pm t mu : Nat) (xo : Bool)
    (h : vote cfg s a o amt pm t mu xo = .ok s2) :
    (lookupVote s2 a).weightedVotes ≤
      (if s.totalVoters = 0 then 30
       else s.totalWeightedVotes / s.totalVoters * cfg.maxWeightCap) := by
  obtain ⟨w, mt, hs2, _, _, _, _, _, hw⟩ := vote_ok_elim cfg s s2 a o amt pm t mu xo h
  rw [hs2, lookupVote_commit]
  exact hw

/-- The ledger state after a first vote of 4 credits at the neutral 1.0x
multiplier on the sample poll. -/
def sA : PollState :=
  run cfgA initState [Op.castVote 1 0 (4 * 10 ^ 18) 0 5 (10 ^ 18) true]

/-- Witness for C2: the concrete first vote of 4 credits commits weight 2,
within the first-voter cap of 30. -/
theorem committed_weight_le_cap_w :
    vote cfgA initState 1 0 (4 * 10 ^ 18) 0 5 (10 ^ 18) true = .ok sA ∧
      (lookupVote sA 1).weightedVotes ≤
        (if initState.totalVoters = 0 then 30
         else initState.totalWeightedVotes / initState.totalVoters * cfgA.maxWeightCap) :=
  ⟨rfl, committed_weight_le_cap cfgA initState sA 1 0 (4 * 10 ^ 18) 0 5 (10 ^ 18) true (by rfl)⟩

/-- Witness for C7 on the freshly constructed two-option poll. -/
theorem getWinner_first_max_w :
    1 ≤ cfgA.numOptions ∧
      ((getWinner cfgA initState).1 < cfgA.numOptions ∧
       initState.results (getWinner cfgA initState).1 = (getWinner cfgA initState).2 ∧
       (∀ j, j < cfgA.numOptions → initState.results j ≤ (getWinner cfgA initState).2) ∧
       (∀ j, j < (getWinner cfgA initState).1 →
         initState.results j < (getWinner cfgA initState).2) ∧
       ((∀ j, j < cfgA.numOptions → initState.results j = 0) →
         getWinner cfgA initState = (0, 0))) :=
  ⟨by decide, getWinner_first_max cfgA initState (by decide)⟩

/-- The inductive ledger invariant: every stored record has a nonzero
timestamp (block timestamps are positive on any chain), voter addresses are
pairwise distinct, totalVoters counts the records, and the per-option tallies
sum to totalWeightedVotes. -/
def Inv (cfg : Config) (s : PollState) : Prop :=
  (∀ p ∈ s.votes, p.2.timestamp ≠ 0) ∧
  (s.votes.map Prod.fst).Nodup ∧
  s.totalVoters = s.votes.length ∧
  sumResults cfg s = s.totalWeightedVotes

/-- An address appearing among the stored keys resolves to the first stored
record with that key. -/
lemma lookup_mem (s : PollState) (a : Nat) (h : a ∈ s.votes.map Prod.fst) :
    ∃ p, p ∈ s.votes ∧ p.1 = a ∧ lookupVote s a = p.2 := by
  obtain ⟨p, hp, hpa⟩ := List.mem_map.mp h
  have hsome : (s.votes.find? (fun q => q.1 == a)).isSome := by
    rw [List.find?_isSome]
    exact ⟨p, hp, by simp [hpa]⟩
  cases hfind : s.votes.find? (fun q => q.1 == a) with
  | none => rw [hfind] at hsome; simp at hsome
  | some q =>
    refine ⟨q, List.mem_of_find?_eq_some hfind, ?_, ?_⟩
    · have hq := List.find?_some hfind
      simpa using hq
    · simp [lookupVote, hfind]

/-- Committing a vote on a valid option index adds its weight to the tally
sum. -/
lemma sumResults_commit (cfg : Config) (s : PollState) (a o c w t : Nat)
    (m : VotingMethod) (ho : o < cfg.numOptions) :
    sumResults cfg (commitVote s a o c w t m) = sumResults cfg s + w := by
  unfold sumResults commitVote
  simp only []
  have h1 : ∀ j ∈ Finset.range cfg.numOptions,
      (if j = o then s.results j + w else s.results j) =
        s.results j + (if j = o then w else 0) := by
    intro j _
    split <;> simp
  rw [Finset.sum_congr rfl h1, Finset.sum_add_distrib,
    Finset.sum_ite_eq' (Finset.range cfg.numOptions) o (fun _ => w),
    if_pos (Finset.mem_range.mpr ho)]

/-- A successful vote at a positive block timestamp preserves the invariant. -/
lemma vote_ok_inv (cfg : Config) (s s2 : PollState) (a o amt pm t mu : Nat) (xo : Bool)
    (ht : 0 < t) (hinv : Inv cfg s) (h : vote cfg s a o amt pm t mu xo = .ok s2) :
    Inv cfg s2 := by
  obtain ⟨w, mt, hs2, _, hts, ho, _, _, _⟩ := vote_ok_elim cfg s s2 a o amt pm t mu xo h
  obtain ⟨i1, i2, i3, i4⟩ := hinv
  have hfresh : a ∉ s.votes.map Prod.fst := by
    intro hmem
    obtain ⟨p, hp, hpa, hl⟩ := lookup_mem s a hmem
    exact i1 p hp (by rw [← hl, hts])
  subst hs2
  refine ⟨?_, ?_, ?_, ?_⟩
  · intro p hp
    simp only [commitVote, List.mem_cons] at hp
    rcases hp with hp | hp
    · subst hp
      show t ≠ 0
      omega
    · exact i1 p hp
  · simpa [commitVote] using List.Nodup.cons hfresh i2
  · simp [commitVote, i3]
  · rw [show sumResults cfg (commitVote _ a o (amt / CREDIT_PRICE) w t mt) =
        sumResults cfg { s with
          userBets := fun x => if x = a then amt else s.userBets x
          totalBetAmount := s.totalBetAmount + amt } + w from sumResults_commit _ _ _ _ _ _ _ _ ho]
    simp only [commitVote]
    have h4 : sumResults cfg { s with
        userBets := fun x => if x = a then amt else s.userBets x
        totalBetAmount := s.totalBetAmount + amt } = sumResults cfg s := rfl
    rw [h4, i4]

/-- Elimination of a successful claim: the post state only flips the callers
claimed flag, the payout is the proportional share, and all the guards
passed. -/
lemma claim_ok_elim (cfg : Config) (s s2 : PollState) (a t sh : Nat) (xo ro : Bool)
    (h : claimWinnings cfg s a t xo ro = .ok (s2, sh)) :
    s2 = { s with hasClaimed := fun x => if x = a then true else s.hasClaimed x } ∧
    sh = (lookupVote s a).weightedVotes * s.totalBetAmount / (getWinner cfg s).2 ∧
    cfg.endTime ≤ t ∧
    s.hasClaimed a = false ∧
    (lookupVote s a).timestamp ≠ 0 ∧
    (lookupVote s a).option = (getWinner cfg s).1 ∧
    (getWinner cfg s).2 ≠ 0 ∧
    xo = true ∧ ro = true := by
  simp only [claimWinnings] at h
  by_cases h1 : t < cfg.endTime
  · rw [if_pos h1] at h; exact Except.noConfusion h
  rw [if_neg h1] at h
  by_cases h2 : s.hasClaimed a
  · rw [if_pos h2] at h; exact Except.noConfusion h
  rw [if_neg h2] at h
  by_cases h3 : (lookupVote s a).timestamp = 0
  · rw [if_pos h3] at h; exact Except.noConfusion h
  rw [if_neg h3] at h
  by_cases h4 : (lookupVote s a).option ≠ (getWinner cfg s).1
  · rw [if_pos h4] at h; exact Except.noConfusion h
  rw [if_neg h4] at h
  by_cases h5 : (getWinner cfg s).2 = 0
  · rw [if_pos h5] at h; exact Except.noConfusion h
  rw [if_neg h5] at h
  by_cases h6 : xo = false
  · rw [if_pos h6] at h; exact Except.noConfusion h
  rw [if_neg h6] at h
  by_cases h7 : ro = false
  · rw [if_pos h7] at h; exact Except.noConfusion h
  rw [if_neg h7] at h
  rw [Except.ok.injEq, Prod.mk.injEq] at h
  refine ⟨h.1.symm, h.2.symm, Nat.not_lt.mp h1, by simpa using h2, h3,
    Decidable.not_not.mp h4, h5, by simpa using h6, by simpa using h7⟩

/-- The invariant ignores the claimed flags, so any claim preserves it. -/
lemma inv_hasClaimed (cfg : Config) (s : PollState) (f : Nat → Bool)
    (hinv : Inv cfg s) : Inv cfg { s with hasClaimed := f } := hinv

/-- Every operation preserves the invariant when run at a positive block
timestamp (a revert leaves the state unchanged). -/
lemma applyOp_inv (cfg : Config) (s : PollState) (op : Op)
    (ht : 0 < op.time) (hinv : Inv cfg s) : Inv cfg (applyOp cfg s op) := by
  cases op with
  | castVote a o amt pm t mu xo =>
    simp only [applyOp]
    cases hv : vote cfg s a o amt pm t mu xo with
    | ok s2 => exact vote_ok_inv cfg s s2 a o amt pm t mu xo ht hinv hv
    | error e => exact hinv
  | claim a t xo ro =>
    simp only [applyOp]
    cases hv : claimWinnings cfg s a t xo ro with
    | ok p =>
      obtain ⟨hs2, _⟩ := claim_ok_elim cfg s p.1 a t p.2 xo ro (by rw [hv])
      show Inv cfg p.1
      rw [hs2]
      exact inv_hasClaimed cfg s _ hinv
    | error e => exact hinv

/-- The invariant holds along every trace with positive block timestamps. -/
lemma run_inv (cfg : Config) :
    ∀ ops s, Inv cfg s → (∀ op ∈ ops, 0 < Op.time op) → Inv cfg (run cfg s ops) := by
  intro ops
  induction ops with
  | nil => intro s h _; exact h
  | cons op ops ih =>
    intro s h hpos
    exact ih _ (applyOp_inv cfg s op (hpos op (List.mem_cons_self op ops)) h)
      (fun o ho => hpos o (List.mem_cons_of_mem op ho))

/-- The invariant holds for the freshly constructed poll. -/
lemma initState_inv (cfg : Config) : Inv cfg initState := by
  refine ⟨by simp [initState], by simp [initState], by simp [initState], ?_⟩
  simp [sumResults, initState]

/-- Under the invariant, the count of addresses holding a VoteRecord is the
number of stored records. -/
lemma voteRecordCount_eq (s : PollState)
    (h1 : ∀ p ∈ s.votes, p.2.timestamp ≠ 0)
    (h2 : (s.votes.map Prod.fst).Nodup) :
    voteRecordCount s = s.votes.length := by
  unfold voteRecordCount
  rw [List.dedup_eq_self.mpr h2]
  have h3 : ∀ a ∈ s.votes.map Prod.fst, holdsVoteRecord s a = true := by
    intro a ha
    obtain ⟨p, hp, hpa, hl⟩ := lookup_mem s a ha
    simp only [holdsVoteRecord, hl, bne_iff_ne, ne_eq]
    exact h1 p hp
  rw [List.filter_eq_self.mpr h3, List.length_map]

/-- C1: along every trace of castVote and claimWinnings operations from the
freshly constructed poll (at positive block timestamps), the per-option
tallies sum to totalWeightedScore and totalVoters equals the number of
addresses holding a VoteRecord. -/
theorem tally_and_voter_invariant (cfg : Config) (ops : List Op)
    (hpos : ∀ op ∈ ops, 0 < Op.time op) :
    sumResults cfg (run cfg initState ops) = (run cfg initState ops).totalWeightedVotes ∧
    (run cfg initState ops).totalVoters = voteRecordCount (run cfg initState ops) := by
  obtain ⟨i1, i2, i3, i4⟩ := run_inv cfg ops initState (initState_inv cfg) hpos
  exact ⟨i4, by rw [i3, voteRecordCount_eq _ i1 i2]⟩

/-- A sample trace: two quadratic votes on option 0 and a successful claim
after close. -/
def opsB : List Op :=
  [Op.castVote 1 0 (4 * 10 ^ 18) 0 5 (10 ^ 18) true,
   Op.castVote 2 1 (10 ^ 18) 0 6 (10 ^ 18) true,
   Op.claim 1 10 true true]

/-- Witness for C1 on the concrete three-operation trace. -/
theorem tally_and_voter_invariant_w :
    (∀ op ∈ opsB, 0 < Op.time op) ∧
      (sumResults cfgA (run cfgA initState opsB) =
          (run cfgA initState opsB).totalWeightedVotes ∧
        (run cfgA initState opsB).totalVoters =
          voteRecordCount (run cfgA initState opsB)) :=
  ⟨by decide, tally_and_voter_invariant cfgA opsB (by decide)⟩

/-- C8 counterexample: a recorded voter who casts a second vote after
endTime is rejected with PollClosed, not AlreadyVoted, so a second castVote
from a recorded address does not always fail with AlreadyVoted. -/
theorem second_vote_after_close_pollclosed :
    (lookupVote sA 1).timestamp ≠ 0 ∧
    vote cfgA sA 1 0 (10 ^ 18) 0 10 (10 ^ 18) true = .error .PollClosed ∧
    PollError.PollClosed ≠ PollError.AlreadyVoted :=
  ⟨by decide, by rfl, by decide⟩

/-- C8 amended: in every reachable state (positive block timestamps) each
address has at most one VoteRecord, and a second castVote from a recorded
address WHILE THE POLL IS STILL ACTIVE always fails with AlreadyVoted,
leaving the ledger state unchanged (after endTime the PollClosed check fires
first). -/
theorem second_vote_rejected_while_active (cfg : Config) (ops : List Op)
    (hpos : ∀ op ∈ ops, 0 < Op.time op) :
    ((run cfg initState ops).votes.map Prod.fst).Nodup ∧
    (∀ a o amt pm t mu xo, t < cfg.endTime →
      a ∈ (run cfg initState ops).votes.map Prod.fst →
      vote cfg (run cfg initState ops) a o amt pm t mu xo = .error .AlreadyVoted ∧
      applyOp cfg (run cfg initState ops) (.castVote a o amt pm t mu xo) =
        run cfg initState ops) := by
  obtain ⟨i1, i2, i3, i4⟩ := run_inv cfg ops initState (initState_inv cfg) hpos
  refine ⟨i2, ?_⟩
  intro a o amt pm t mu xo hlt hmem
  obtain ⟨p, hp, hpa, hl⟩ := lookup_mem _ a hmem
  have hts : 0 < (lookupVote (run cfg initState ops) a).timestamp := by
    rw [hl]
    exact Nat.pos_of_ne_zero (i1 p hp)
  have hv : vote cfg (run cfg initState ops) a o amt pm t mu xo = .error .AlreadyVoted := by
    unfold vote
    rw [if_neg (Nat.not_le.mpr hlt), if_pos hts]
  exact ⟨hv, by simp [applyOp, hv]⟩

/-- Witness for the amended C8: on the sample trace, voter 1 re-voting at
time 7 (before close) is rejected with AlreadyVoted and the state is
untouched. -/
theorem second_vote_rejected_while_active_w :
    (∀ op ∈ opsB, 0 < Op.time op) ∧ 7 < cfgA.endTime ∧
      1 ∈ (run cfgA initState opsB).votes.map Prod.fst ∧
      ((run cfgA initState opsB).votes.map Prod.fst).Nodup ∧
      vote cfgA (run cfgA initState opsB) 1 0 (10 ^ 18) 0 7 (10 ^ 18) true =
        .error .AlreadyVoted ∧
      applyOp cfgA (run cfgA initState opsB) (.castVote 1 0 (10 ^ 18) 0 7 (10 ^ 18) true) =
        run cfgA initState opsB := by
  have h := second_vote_rejected_while_active cfgA opsB (by decide)
  have h2 := h.2 1 0 (10 ^ 18) 0 7 (10 ^ 18) true (by decide) (by decide)
  exact ⟨by decide, by decide, by decide, h.1, h2.1, h2.2⟩

/-- A one-option poll in which the single voter carries a zero reputation
multiplier, so every committed weight is zero. -/
def cfgC : Config :=
  { numOptions := 1, endTime := 10, maxWeightCap := 3
    votingMethod := .QUADRATIC, isVotingMethodLocked := true }

/-- State of the one-option poll after a vote whose oracle multiplier is 0:
the record exists but its weight, and hence every tally, is zero. -/
def sC : PollState :=
  run cfgC initState [Op.castVote 1 0 (10 ^ 18) 0 1 0 true]

/-- C4 counterexample: voter 1 is eligible at claim time (poll closed, not
claimed, holds a record whose option is the winning option), yet
claimWinnings reverts with a division-by-zero panic because the winning
option total weight is zero, so no payout is made. -/
theorem eligible_claim_reverts_on_zero_winner :
    cfgC.endTime ≤ 10 ∧ sC.hasClaimed 1 = false ∧
    (lookupVote sC 1).timestamp ≠ 0 ∧
    (lookupVote sC 1).option = (getWinner cfgC sC).1 ∧
    claimWinnings cfgC sC 1 10 true true = .error .DivisionByZero :=
  ⟨by decide, by decide, by decide, by decide, by rfl⟩

/-- C4 amended: for every voter eligible at claim time, PROVIDED the winning
option total weight is nonzero, claimWinnings pays exactly
floor(voterWeight x totalStaked / winningVotes), with totalStaked the entire
stake pool across all options (when the winning total is zero the call
reverts with a division panic instead). -/
theorem claim_payout_formula (cfg : Config) (s : PollState) (a t : Nat)
    (h1 : cfg.endTime ≤ t) (h2 : s.hasClaimed a = false)
    (h3 : (lookupVote s a).timestamp ≠ 0)
    (h4 : (lookupVote s a).option = (getWinner cfg s).1)
    (h5 : (getWinner cfg s).2 ≠ 0) :
    claimWinnings cfg s a t true true =
      .ok ({ s with hasClaimed := fun x => if x = a then true else s.hasClaimed x },
        (lookupVote s a).weightedVotes * s.totalBetAmount / (getWinner cfg s).2) := by
  simp only [claimWinnings]
  rw [if_neg (Nat.not_lt.mpr h1), if_neg (by simp [h2]), if_neg h3,
    if_neg (by simp [h4]), if_neg h5, if_neg (by simp), if_neg (by simp)]

/-- Witness for the amended C4: voter 1 with weight 2 on the winning option
of the sample poll is paid floor(2 x 4e18 / 2). -/
theorem claim_payout_formula_w :
    (cfgA.endTime ≤ 10 ∧ sA.hasClaimed 1 = false ∧
      (lookupVote sA 1).timestamp ≠ 0 ∧
      (lookupVote sA 1).option = (getWinner cfgA sA).1 ∧
      (getWinner cfgA sA).2 ≠ 0) ∧
    claimWinnings cfgA sA 1 10 true true =
      .ok ({ sA with hasClaimed := fun x => if x = 1 then true else sA.hasClaimed x },
        (lookupVote sA 1).weightedVotes * sA.totalBetAmount / (getWinner cfgA sA).2) :=
  ⟨⟨by decide, by decide, by decide, by decide, by decide⟩,
    claim_payout_formula cfgA sA 1 10 (by decide) (by decide) (by decide) (by decide) (by decide)⟩

/-- State after the two votes of the sample trace and the winning claim:
voter 2 holds a record for the losing option 1, address 3 never voted. -/
def sB : PollState := run cfgA initState opsB

/-- C5 counterexample: after close, a caller with no VoteRecord fails with
NotAWinner, the very same error a recorded voter of a losing option gets, so
there is no distinct NotAVoter error (the source declares none). -/
theorem nonvoter_gets_notawinner_cex :
    (lookupVote sB 3).timestamp = 0 ∧
    claimWinnings cfgA sB 3 10 true true = .error .NotAWinner ∧
    (lookupVote sB 2).timestamp ≠ 0 ∧
    (lookupVote sB 2).option ≠ (getWinner cfgA sB).1 ∧
    claimWinnings cfgA sB 2 10 true true = .error .NotAWinner :=
  ⟨by decide, by rfl, by decide, by decide, by rfl⟩

/-- C5 amended: a caller with no VoteRecord invoking claimWinnings after
close and without having claimed always fails with NotAWinner: the code has
no NotAVoter error, so non-voters are not distinguishable from losing voters
by error kind. -/
theorem nonvoter_claim_notawinner (cfg : Config) (s : PollState) (a t : Nat) (xo ro : Bool)
    (h1 : cfg.endTime ≤ t) (h2 : s.hasClaimed a = false)
    (h3 : (lookupVote s a).timestamp = 0) :
    claimWinnings cfg s a t xo ro = .error .NotAWinner := by
  simp only [claimWinnings]
  rw [if_neg (Nat.not_lt.mpr h1), if_neg (by simp [h2]), if_pos h3]

/-- Witness for the amended C5 at the concrete non-voter address 3. -/
theorem nonvoter_claim_notawinner_w :
    (cfgA.endTime ≤ 10 ∧ sB.hasClaimed 3 = false ∧ (lookupVote sB 3).timestamp = 0) ∧
      claimWinnings cfgA sB 3 10 true true = .error .NotAWinner :=
  ⟨⟨by decide, by decide, by decide⟩,
    nonvoter_claim_notawinner cfgA sB 3 10 true true (by decide) (by decide) (by decide)⟩

/-- C6 counterexample: voter 1 is an eligible winner and the payout transfer
succeeds (its outcome is fixed to true), yet a failing addReputation call
aborts the whole claim: the claimed flag stays false and no payout state
survives. -/
theorem rep_failure_blocks_payout_cex :
    cfgA.endTime ≤ 10 ∧ sA.hasClaimed 1 = false ∧
    (lookupVote sA 1).timestamp ≠ 0 ∧
    (lookupVote sA 1).option = (getWinner cfgA sA).1 ∧
    (getWinner cfgA sA).2 ≠ 0 ∧
    claimWinnings cfgA sA 1 10 true false = .error .ReputationCallFailed ∧
    applyOp cfgA sA (.claim 1 10 true false) = sA :=
  ⟨by decide, by decide, by decide, by decide, by decide, by rfl, by rfl⟩

/-- C6 amended: a failure of the external addReputation call aborts the
entire claimWinnings atomically, rolling back the claimed flag and the
payout: the reputation credit is not best-effort and its failure does block
the payout. -/
theorem rep_failure_blocks_claim (cfg : Config) (s : PollState) (a t : Nat)
    (h1 : cfg.endTime ≤ t) (h2 : s.hasClaimed a = false)
    (h3 : (lookupVote s a).timestamp ≠ 0)
    (h4 : (lookupVote s a).option = (getWinner cfg s).1)
    (h5 : (getWinner cfg s).2 ≠ 0) :
    claimWinnings cfg s a t true false = .error .ReputationCallFailed ∧
    applyOp cfg s (.claim a t true false) = s := by
  have hv : claimWinnings cfg s a t true false = .error .ReputationCallFailed := by
    simp only [claimWinnings]
    rw [if_neg (Nat.not_lt.mpr h1), if_neg (by simp [h2]), if_neg h3,
      if_neg (by simp [h4]), if_neg h5, if_neg (by simp)]
    simp
  exact ⟨hv, by simp [applyOp, hv]⟩

/-- Witness for the amended C6 at the concrete winning voter 1. -/
theorem rep_failure_blocks_claim_w :
    (cfgA.endTime ≤ 10 ∧ sA.hasClaimed 1 = false ∧
      (lookupVote sA 1).timestamp ≠ 0 ∧
      (lookupVote sA 1).option = (getWinner cfgA sA).1 ∧
      (getWinner cfgA sA).2 ≠ 0) ∧
    claimWinnings cfgA sA 1 10 true false = .error .ReputationCallFailed ∧
    applyOp cfgA sA (.claim 1 10 true false) = sA :=
  ⟨⟨by decide, by decide, by decide, by decide, by decide⟩,
    rep_failure_blocks_claim cfgA sA 1 10 (by decide) (by decide) (by decide) (by decide)
      (by decide)⟩

/-- C9: every failing castVote or claimWinnings, whatever its revert reason
(the declared errors, a rejected transfer, a division panic or a reverting
reputation call), leaves the entire ledger state exactly unchanged. -/
theorem failed_op_leaves_state_unchanged (cfg : Config) (s : PollState) (op : Op)
    (h : opFails cfg s op) : applyOp cfg s op = s := by
  cases op with
  | castVote a o amt pm t mu xo =>
    obtain ⟨e, he⟩ := h
    simp [applyOp, he]
  | claim a t xo ro =>
    obtain ⟨e, he⟩ := h
    simp [applyOp, he]

/-- Witness for C9: a claim before close reverts with PollStillActive and
the fresh state is untouched. -/
theorem failed_op_leaves_state_unchanged_w :
    opFails cfgA initState (Op.claim 1 0 true true) ∧
      applyOp cfgA initState (Op.claim 1 0 true true) = initState :=
  ⟨⟨.PollStillActive, by rfl⟩,
    failed_op_leaves_state_unchanged cfgA initState _ ⟨.PollStillActive, by rfl⟩⟩

/-- Overwriting only the stored isActive flag. -/
def setActive (s : PollState) (b : Bool) : PollState := { s with isActive := b }

/-- No operation writes the isActive flag. -/
lemma applyOp_isActive (cfg : Config) (s : PollState) (op : Op) :
    (applyOp cfg s op).isActive = s.isActive := by
  cases op with
  | castVote a o amt pm t mu xo =>
    simp only [applyOp]
    cases hv : vote cfg s a o amt pm t mu xo with
    | ok s2 =>
      obtain ⟨w, mt, hs2, _⟩ := vote_ok_elim cfg s s2 a o amt pm t mu xo hv
      rw [hs2]
      rfl
    | error e => rfl
  | claim a t xo ro =>
    simp only [applyOp]
    cases hv : claimWinnings cfg s a t xo ro with
    | ok p =>
      obtain ⟨hs2, _⟩ := claim_ok_elim cfg s p.1 a t p.2 xo ro (by rw [hv])
      show p.1.isActive = s.isActive
      rw [hs2]
    | error e => rfl

/-- The isActive flag survives any trace unchanged. -/
lemma run_isActive (cfg : Config) :
    ∀ ops s, (run cfg s ops).isActive = s.isActive := by
  intro ops
  induction ops with
  | nil => intro s; rfl
  | cons op ops ih =>
    intro s
    rw [run, ih, applyOp_isActive]

/-- Reading the votes mapping ignores the isActive flag. -/
lemma lookupVote_setActive (s : PollState) (b : Bool) (a : Nat) :
    lookupVote { s with isActive := b } a = lookupVote s a := rfl

/-- The winner scan ignores the isActive flag. -/
lemma getWinner_setActive (cfg : Config) (s : PollState) (b : Bool) :
    getWinner cfg { s with isActive := b } = getWinner cfg s := rfl

/-- The vote function never reads the stored isActive flag: its outcome on a
state with the flag overwritten is the same outcome with the flag carried
through. -/
lemma vote_setActive (cfg : Config) (s : PollState) (b : Bool)
    (a o amt pm t mu : Nat) (xo : Bool) :
    vote cfg (setActive s b) a o amt pm t mu xo =
      Except.map (fun s2 => setActive s2 b) (vote cfg s a o amt pm t mu xo) := by
  simp only [vote, setActive, lookupVote_setActive]
  by_cases h1 : cfg.endTime ≤ t
  · rw [if_pos h1, if_pos h1]; rfl
  rw [if_neg h1, if_neg h1]
  by_cases h2 : 0 < (lookupVote s a).timestamp
  · rw [if_pos h2, if_pos h2]; rfl
  rw [if_neg h2, if_neg h2]
  by_cases h3 : cfg.numOptions ≤ o
  · rw [if_pos h3, if_pos h3]; rfl
  rw [if_neg h3, if_neg h3]
  by_cases h4 : amt = 0
  · rw [if_pos h4, if_pos h4]; rfl
  rw [if_neg h4, if_neg h4]
  by_cases h5 : amt / CREDIT_PRICE = 0
  · rw [if_pos h5, if_pos h5]; rfl
  rw [if_neg h5, if_neg h5]
  by_cases h6 : MAX_CREDITS_PER_USER < amt / CREDIT_PRICE
  · rw [if_pos h6, if_pos h6]; rfl
  rw [if_neg h6, if_neg h6]
  by_cases h7 : xo = false
  · rw [if_pos h7, if_pos h7]; rfl
  rw [if_neg h7, if_neg h7]
  by_cases h8 : cfg.isVotingMethodLocked = false ∧ 2 < pm
  · rw [if_pos h8, if_pos h8]; rfl
  rw [if_neg h8, if_neg h8]
  rfl

/-- The claimWinnings function never reads the stored isActive flag either. -/
lemma claimWinnings_setActive (cfg : Config) (s : PollState) (b : Bool)
    (a t : Nat) (xo ro : Bool) :
    claimWinnings cfg (setActive s b) a t xo ro =
      Except.map (fun p => (setActive p.1 b, p.2)) (claimWinnings cfg s a t xo ro) := by
  simp only [claimWinnings, setActive, lookupVote_setActive, getWinner_setActive]
  by_cases h1 : t < cfg.endTime
  · rw [if_pos h1, if_pos h1]; rfl
  rw [if_neg h1, if_neg h1]
  by_cases h2 : s.hasClaimed a = true
  · rw [if_pos h2, if_pos h2]; rfl
  rw [if_neg h2, if_neg h2]
  by_cases h3 : (lookupVote s a).timestamp = 0
  · rw [if_pos h3, if_pos h3]; rfl
  rw [if_neg h3, if_neg h3]
  by_cases h4 : (lookupVote s a).option ≠ (getWinner cfg s).1
  · rw [if_pos h4, if_pos h4]; rfl
  rw [if_neg h4, if_neg h4]
  by_cases h5 : (getWinner cfg s).2 = 0
  · rw [if_pos h5, if_pos h5]; rfl
  rw [if_neg h5, if_neg h5]
  by_cases h6 : xo = false
  · rw [if_pos h6, if_pos h6]; rfl
  rw [if_neg h6, if_neg h6]
  by_cases h7 : ro = false
  · rw [if_pos h7, if_pos h7]; rfl
  rw [if_neg h7, if_neg h7]
  rfl

/-- C10: isActive is set to true by the constructor and never modified by
any operation, staying true even after endTime; and neither vote nor
claimWinnings reads it: overwriting the flag changes no outcome, so poll
closure is decided solely by comparing the call timestamp to endTime. -/
theorem isActive_constant_and_unread :
    (∀ cfg ops, (run cfg initState ops).isActive = true) ∧
    (∀ cfg s b a o amt pm t mu xo,
      vote cfg (setActive s b) a o amt pm t mu xo =
        Except.map (fun s2 => setActive s2 b) (vote cfg s a o amt pm t mu xo)) ∧
    (∀ cfg s b a t xo ro,
      claimWinnings cfg (setActive s b) a t xo ro =
        Except.map (fun p => (setActive p.1 b, p.2)) (claimWinnings cfg s a t xo ro)) :=
  ⟨fun cfg ops => run_isActive cfg ops initState,
    fun cfg s b a o amt pm t mu xo => vote_setActive cfg s b a o amt pm t mu xo,
    fun cfg s b a t xo ro => claimWinnings_setActive cfg s b a t xo ro⟩

/-- C3: for every x in [0, 10000], the QUADRATIC base weight computed by the
Babylonian _sqrt equals the mathematical floor of the square root of x
exactly (stated both for _sqrt itself and for the weight computation at the
neutral 1.0x multiplier). -/
theorem quadratic_sqrt_exact (x : Nat) (_hx : x ≤ 10000) :
    _sqrt x = Nat.sqrt x ∧
      _calculateVoteWeightWithMethod (10 ^ 18) x VotingMethod.QUADRATIC = Nat.sqrt x := by
  refine ⟨_sqrt_eq_sqrt x, ?_⟩
  unfold _calculateVoteWeightWithMethod
  rw [_sqrt_eq_sqrt]
  exact Nat.mul_div_cancel _ (by norm_num)

/-- Witness for C3 at the concrete input 9999. -/
theorem quadratic_sqrt_exact_w :
    9999 ≤ 10000 ∧
      (_sqrt 9999 = Nat.sqrt 9999 ∧
        _calculateVoteWeightWithMethod (10 ^ 18) 9999 VotingMethod.QUADRATIC = Nat.sqrt 9999) :=
  ⟨by decide, quadratic_sqrt_exact 9999 (by decide)⟩

end HackPoll
